import Mathlib

/-! A shallow embedding of `sequence.h` and `restore_guard.h`.

`sequence<T, Traits>` is a pair of pointers `lptr`, `rptr` into a buffer owned by
somebody else.  Here the buffer is a `List T` carried along with the two
pointers, and a pointer is the index of an element of that list.  `size_type`
is a 64-bit unsigned integer: it is a `Nat`, and every subtraction or addition
of the source that can wrap is written with an explicit `% 2 ^ 64`.

A C++ call can leave its function in ways that are not a normal return;
they are the constructors of `Fault`, and a function that can do so returns
`Except Fault _`.
-/

namespace Seq

/-- The ways a call ends without returning a value: `std::out_of_range` is thrown,
`std::terminate` is called because an exception leaves a `noexcept` function,
an `assert` fails, or the behaviour is undefined (a read or write through a
pointer that does not point into the buffer or to a variable). -/
inductive Fault where
  | out_of_range
  | terminate
  | assertion
  | undefined
  deriving DecidableEq

instance {ε α : Type} [DecidableEq ε] [DecidableEq α] : DecidableEq (Except ε α)
  | .ok a, .ok b => if h : a = b then isTrue (by rw [h]) else isFalse (by intro h1; cases h1; exact h rfl)
  | .error a, .error b =>
    if h : a = b then isTrue (by rw [h]) else isFalse (by intro h1; cases h1; exact h rfl)
  | .ok _, .error _ => isFalse (by intro h1; cases h1)
  | .error _, .ok _ => isFalse (by intro h1; cases h1)

/-- The number of values of `size_type` (`std::size_t`, 64 bits). -/
def size_mod : Nat := 2 ^ 64

/-- The constant `npos = size_type(-1)` (sequence.h:17). -/
def npos : Nat := 2 ^ 64 - 1

/-- The `Traits` template parameter: the operations of the policy that
`sequence.h` calls.  `copy dest src n` is `Traits::copy(dest, src, n)`: `dest` is
the destination buffer, `src` the source buffer from the source pointer on, and
the result is the destination buffer after the call.  It is a policy whose
`copy` returns: a `copy` that runs past the end of `src` or `dest` (undefined
behaviour in the code) is a total function here, so what is proved of
`sequence.copy` is the count it passes and returns, and the buffer only for
counts within both buffers. -/
structure Traits (T : Type) where
  eq : T → T → Bool
  lt : T → T → Bool
  copy : List T → List T → Nat → List T

/-- The view `sequence<T, Traits>` (sequence.h:10-19): `lptr` and `rptr` are
positions in `buf`, the buffer both pointers point into. -/
structure sequence (T : Type) where
  buf : List T
  lptr : Nat
  rptr : Nat
  deriving DecidableEq

variable {T : Type}

/-- The invariant of a view (spec, data model): `begin <= end`, both inside or one
past the end of the buffer, whose size fits `size_type`. -/
def sequence.wf (s : sequence T) : Prop :=
  s.lptr ≤ s.rptr ∧ s.rptr ≤ s.buf.length ∧ s.buf.length < size_mod

instance (s : sequence T) : Decidable s.wf := by
  unfold sequence.wf; exact inferInstance

/-- Models `sequence(const T *s, size_type count)` (sequence.h:31-34), for `s` the start of
`buf`. -/
def sequence.of_buf (buf : List T) (count : Nat) : sequence T :=
  { buf := buf, lptr := 0, rptr := 0 + count }

/-- Models `make_seq(lptr, rptr)` (sequence.h:183-188), for two pointers into `buf`. -/
def sequence.make_seq (buf : List T) (lptr rptr : Nat) : sequence T :=
  { buf := buf, lptr := lptr, rptr := rptr }

/-- Models `begin()` (sequence.h:47-49). -/
def sequence.begin (s : sequence T) : Nat := s.lptr

/-- Models `end()` (sequence.h:51-53). -/
def sequence.end (s : sequence T) : Nat := s.rptr

/-- Models `size()` (sequence.h:82-84): `rptr - lptr` converted to `size_type`. -/
def sequence.size (s : sequence T) : Nat :=
  (s.rptr + size_mod - s.lptr) % size_mod

/-- Models `empty()` (sequence.h:86-88). -/
def sequence.empty (s : sequence T) : Bool := s.lptr == s.rptr

/-- The elements the iterator range `[begin(), end())` walks over. -/
def sequence.elems (s : sequence T) : List T :=
  (s.buf.drop s.lptr).take (s.rptr - s.lptr)

/-- Models `operator[](pos)` (sequence.h:63-65): `*std::next(lptr, pos)`, unchecked; a read
outside the buffer is undefined behaviour. -/
def sequence.index (s : sequence T) (pos : Nat) : Except Fault T :=
  match s.buf[s.lptr + pos]? with
  | some x => .ok x
  | none => .error .undefined

/-- Models `at(pos)` (sequence.h:67-72). -/
def sequence.at (s : sequence T) (pos : Nat) : Except Fault T :=
  if pos ≥ s.size then .error .out_of_range
  else s.index pos

/-- Models `subseq(pos, count)` (sequence.h:124-132). -/
def sequence.subseq (s : sequence T) (pos : Nat := 0) (count : Nat := npos) :
    Except Fault (sequence T) :=
  if pos ≥ s.size then .error .out_of_range
  else
    let end0 := s.size
    let end1 := if count ≠ npos ∧ (pos + count) % size_mod < end0
      then (pos + count) % size_mod else end0
    .ok (sequence.make_seq s.buf (s.begin + pos) (s.begin + end1))

/-- Models `copy(dest, count, pos)` (sequence.h:105-109): the number of elements copied
and the destination buffer after `Traits::copy`. -/
def sequence.copy (tr : Traits T) (s : sequence T) (dest : List T) (count : Nat)
    (pos : Nat := 0) : Except Fault (Nat × List T) :=
  match s.subseq pos count with
  | .error e => .error e
  | .ok sub => .ok (sub.size, tr.copy dest (sub.buf.drop sub.lptr) sub.size)

/-- Models `std::equal(first1, last1, first2, last2, p)` on the elements of the two
ranges. -/
def std_equal (p : T → T → Bool) : List T → List T → Bool
  | [], [] => true
  | a :: as, b :: bs => p a b && std_equal p as bs
  | _, _ => false

/-- Models `std::lexicographical_compare(first1, last1, first2, last2, comp)` on the
elements of the two ranges. -/
def std_lexicographical_compare (comp : T → T → Bool) : List T → List T → Bool
  | [], [] => false
  | [], _ :: _ => true
  | _ :: _, [] => false
  | a :: as, b :: bs =>
    if comp a b then true
    else if comp b a then false
    else std_lexicographical_compare comp as bs

/-- Models `operator==` (sequence.h:155-160). -/
def sequence.op_eq (tr : Traits T) (lhs rhs : sequence T) : Bool :=
  if lhs.size ≠ rhs.size then false
  else std_equal tr.eq lhs.elems rhs.elems

/-- Models `operator!=` (sequence.h:162-164). -/
def sequence.op_ne (tr : Traits T) (lhs rhs : sequence T) : Bool :=
  !(sequence.op_eq tr lhs rhs)

/-- Models `operator<` (sequence.h:166-168). -/
def sequence.op_lt (tr : Traits T) (lhs rhs : sequence T) : Bool :=
  std_lexicographical_compare tr.lt lhs.elems rhs.elems

/-- Models `operator>` (sequence.h:170-172). -/
def sequence.op_gt (tr : Traits T) (lhs rhs : sequence T) : Bool :=
  sequence.op_lt tr rhs lhs

/-- Models `operator<=` (sequence.h:174-176). -/
def sequence.op_le (tr : Traits T) (lhs rhs : sequence T) : Bool :=
  !(sequence.op_gt tr lhs rhs)

/-- Models `operator>=` (sequence.h:178-180). -/
def sequence.op_ge (tr : Traits T) (lhs rhs : sequence T) : Bool :=
  !(sequence.op_lt tr rhs lhs)

/-- Models `compare(v)` (sequence.h:111-122); the last line is `assert(false)`. -/
def sequence.compare (tr : Traits T) (s v : sequence T) : Except Fault Int :=
  if sequence.op_lt tr s v then .ok (-1)
  else if sequence.op_eq tr s v then .ok 0
  else if sequence.op_gt tr s v then .ok 1
  else .error .assertion

/-- The loop of `find` (sequence.h:136-141), `bound` being `size() - v_size` and
`i` the loop variable.  The first argument bounds the number of iterations;
`find` passes `bound - pos`, the number of values of `i` from `pos` up to
`bound`, so it reaches `0` only when `i < bound` fails as well.  `subseq`
throwing inside the `noexcept` function calls `std::terminate`. -/
def sequence.find_loop (tr : Traits T) (s v : sequence T) (v_size bound : Nat) :
    Nat → Nat → Except Fault Nat
  | 0, _ => .ok npos
  | n + 1, i =>
    if i < bound then
      match s.subseq i v_size with
      | .error _ => .error .terminate
      | .ok sub =>
        if sequence.op_eq tr sub v then .ok i
        else sequence.find_loop tr s v v_size bound n (i + 1)
    else .ok npos

/-- Models `find(v, pos)` (sequence.h:134-142). -/
def sequence.find (tr : Traits T) (s v : sequence T) (pos : Nat := 0) :
    Except Fault Nat :=
  let v_size := v.size
  let bound := (s.size + size_mod - v_size) % size_mod
  sequence.find_loop tr s v v_size bound (bound - pos) pos

/-- The loop of `rfind` (sequence.h:147-151): `for (i = pos; i-- > 0;)`, the
argument being `i` before the test. -/
def sequence.rfind_loop (tr : Traits T) (s v : sequence T) (v_size : Nat) :
    Nat → Except Fault Nat
  | 0 => .ok npos
  | i + 1 =>
    match s.subseq i v_size with
    | .error _ => .error .terminate
    | .ok sub =>
      if sequence.op_eq tr sub v then .ok i
      else sequence.rfind_loop tr s v v_size i

/-- Models `rfind(v, pos)` (sequence.h:144-153): the parameter `pos` is assigned
`std::min(size(), npos)` before it is read. -/
def sequence.rfind (tr : Traits T) (s v : sequence T) (pos : Nat := npos) :
    Except Fault Nat :=
  let v_size := v.size
  let pos := min s.size npos
  sequence.rfind_loop tr s v v_size pos

/-- The policy `std::char_traits<int>` of the tests: plain equality, order and copy on
integers. -/
def int_traits : Traits Int :=
  { eq := fun a b => decide (a = b),
    lt := fun a b => decide (a < b),
    copy := fun dest src n => src.take n ++ dest.drop n }

/-- The contract of the policy (spec, external interfaces): `lt` is a strict weak
ordering (irreflexive, transitive, with a transitive incomparability) and `eq`
holds exactly of the pairs that `lt` does not order. -/
structure Traits.strict_weak (tr : Traits T) : Prop where
  irrefl : ∀ x, tr.lt x x = false
  trans : ∀ x y z, tr.lt x y = true → tr.lt y z = true → tr.lt x z = true
  incomp_trans : ∀ x y z, tr.lt x y = false → tr.lt y x = false →
    tr.lt y z = false → tr.lt z y = false → tr.lt x z = false ∧ tr.lt z x = false
  eq_iff : ∀ x y, tr.eq x y = true ↔ (tr.lt x y = false ∧ tr.lt y x = false)

/-- Models `remove_prefix(n)` (sequence.h:90-92): `lptr += n`. -/
def sequence.remove_prefix (s : sequence T) (n : Nat) : sequence T :=
  { s with lptr := s.lptr + n }

/-- Models `remove_suffix(n)` (sequence.h:94-96): `rptr -= n`. -/
def sequence.remove_suffix (s : sequence T) (n : Nat) : sequence T :=
  { s with rptr := s.rptr - n }

/-- The test `h.subseq(i, v.size()) == v` of the search loops, `false` when `subseq`
throws. -/
def sequence.match_at (tr : Traits T) (h v : sequence T) (i : Nat) : Bool :=
  match h.subseq i v.size with
  | .ok sub => sequence.op_eq tr sub v
  | .error _ => false

/-- The walk of the single-pass reference comparison of the spec over the paired
elements: at the first pair where `eq` fails the result is `-1` if `lt` holds of
it and `+1` otherwise; when one of the two is exhausted the result is `-1`, `0`
or `+1` as `asize` is less than, equal to or greater than `bsize`. -/
def compare_ref_walk (tr : Traits T) (asize bsize : Nat) : List T → List T → Int
  | a :: as, b :: bs =>
    if tr.eq a b then compare_ref_walk tr asize bsize as bs
    else if tr.lt a b then -1 else 1
  | _, _ => if asize < bsize then -1 else if asize = bsize then 0 else 1

/-- The single-pass reference three-way comparison of the spec (compare, component
design), on two views. -/
def sequence.compare_ref (tr : Traits T) (a b : sequence T) : Int :=
  compare_ref_walk tr a.size b.size a.elems b.elems

/-- The function `std::toupper` in the "C" locale, on character codes. -/
def to_upper (ch : Nat) : Nat := if 97 ≤ ch ∧ ch ≤ 122 then ch - 32 else ch

/-- The function `std::tolower` in the "C" locale, on character codes. -/
def to_lower (ch : Nat) : Nat := if 65 ≤ ch ∧ ch ≤ 90 then ch + 32 else ch

/-- The policy `case_insensitive_char_traits` of the tests (seq_tests.cpp:20-46), on
character codes; `copy` is the one of `std::char_traits<char>`. -/
def case_insensitive_char_traits : Traits Nat :=
  { eq := fun c1 c2 => to_upper c1 == to_upper c2,
    lt := fun c1 c2 => decide (to_upper c1 < to_upper c2),
    copy := fun dest src n => src.take n ++ dest.drop n }

/-- The policy `case_insensitive_assign_char_traits` of the tests
(seq_tests.cpp:48-56), on character codes: `eq` and `lt` are the ones of
`std::char_traits<char>`, `copy` is `std::transform` with `std::tolower`. -/
def case_insensitive_assign_char_traits : Traits Nat :=
  { eq := fun c1 c2 => c1 == c2,
    lt := fun c1 c2 => decide (c1 < c2),
    copy := fun dest src n => (src.take n).map to_lower ++ dest.drop n }

/-! ## `restore_guard.h` -/

/-- A value of the pointer member `dataptr`: never assigned, `nullptr`, or the
address of a variable. -/
inductive Ptr where
  | uninit
  | null
  | addr (a : Nat)
  deriving DecidableEq

/-- The variables of type `T` of the program, by address. -/
abbrev Store (T : Type) := Nat → T

/-- Assignment to the variable at address `a`. -/
def Store.write (st : Store T) (a : Nat) (x : T) : Store T :=
  fun b => if b = a then x else st b

/-- The members of `set_restore_guard<T>` (restore_guard.h:21-23); `old_data` is
`none` while no `T` has been constructed in the storage. -/
structure set_restore_guard (T : Type) where
  old_data : Option T
  dataptr : Ptr
  containsSmth : Bool

/-- The statement `new (dataptr) T(old_data)`: undefined unless `dataptr` points to a variable and
`old_data` holds a value. -/
def write_back (st : Store T) (dataptr : Ptr) (old_data : Option T) :
    Except Fault (Store T) :=
  match dataptr, old_data with
  | .addr a, some x => .ok (st.write a x)
  | _, _ => .error .undefined

/-- Models `set_restore_guard()` (restore_guard.h:28-31): only `containsSmth` is
assigned. -/
def set_restore_guard.ctor_empty : set_restore_guard T :=
  { old_data := none, dataptr := .uninit, containsSmth := false }

/-- Models `set_restore_guard(T& var, T const& new_value)` (restore_guard.h:33-39), `var`
being the variable at address `var`.  Nothing is written before the statement
`var = new_value` that `new_value` could refer to except the storage of the guard
under construction, so the argument is its value at the call. -/
def set_restore_guard.ctor (st : Store T) (var : Nat) (new_value : T) :
    set_restore_guard T × Store T :=
  let dataptr := Ptr.addr var
  let old_data := some (st var)
  let st1 := st.write var new_value
  ({ old_data := old_data, dataptr := dataptr, containsSmth := true }, st1)

/-- Models `~set_restore_guard()` (restore_guard.h:41-46); the guard is gone afterwards. -/
def set_restore_guard.dtor (g : set_restore_guard T) (st : Store T) :
    Except Fault (Store T) :=
  write_back st g.dataptr g.old_data

/-- Models `restore()` (restore_guard.h:60-66). -/
def set_restore_guard.restore (g : set_restore_guard T) (st : Store T) :
    Except Fault (set_restore_guard T × Store T) :=
  match write_back st g.dataptr g.old_data with
  | .error e => .error e
  | .ok st1 => .ok ({ g with dataptr := .null, containsSmth := false }, st1)

/-- What the parameter `T const& new_value` of `set` is bound to: an object that
`set` does not write (a temporary, a constant, an object that is no guarded
variable), the variable at an address, or the snapshot storage `old_data` of the
guard itself (the result of `g.old_value()`). -/
inductive Ref (T : Type) where
  | val (x : T)
  | var (a : Nat)
  | snapshot
  deriving DecidableEq

/-- The value read through the reference when the variables are `st` and the
snapshot storage of the guard holds `old_data`. -/
def Ref.read (r : Ref T) (st : Store T) (old_data : T) : T :=
  match r with
  | .val x => x
  | .var a => st a
  | .snapshot => old_data

/-- Models `set(T& var, T const& new_value)` (restore_guard.h:48-58).  The reference
`new_value` is read in the last statement but one, `new (dataptr) T(new_value)`,
after `restore()` has written the previous target and after `old_data` has been
overwritten with the value of `var`. -/
def set_restore_guard.set (g : set_restore_guard T) (st : Store T) (var : Nat)
    (new_value : Ref T) : Except Fault (set_restore_guard T × Store T) :=
  let r := if g.containsSmth then g.restore st else .ok (g, st)
  match r with
  | .error e => .error e
  | .ok (_, st1) =>
    let dataptr := Ptr.addr var
    let old_data := st1 var
    let st2 := st1.write var (new_value.read st1 old_data)
    .ok ({ old_data := some old_data, dataptr := dataptr, containsSmth := true }, st2)

/-- Models `old_value()` (restore_guard.h:68-72). -/
def set_restore_guard.old_value (g : set_restore_guard T) : Except Fault T :=
  if g.containsSmth then
    match g.old_data with
    | some x => .ok x
    | none => .error .undefined
  else .error .assertion

/-- Models `operator bool()` (restore_guard.h:74-77). -/
def set_restore_guard.to_bool (g : set_restore_guard T) : Bool := g.containsSmth

/-- The guard is `Holding`: it has the snapshot `x` of the variable at `a`. -/
def set_restore_guard.holding (g : set_restore_guard T) (a : Nat) (x : T) : Prop :=
  g.containsSmth = true ∧ g.dataptr = .addr a ∧ g.old_data = some x

/-- The store in which the variable at address `0` holds `x` and every other one
`0`. -/
def store_of (x : Int) : Store Int := fun a => if a = 0 then x else 0

/-! ## Views: size, elements, `subseq` -/

theorem sequence.size_of_wf (s : sequence T) (hs : s.wf) : s.size = s.rptr - s.lptr := by
  obtain ⟨h1, h2, h3⟩ := hs
  unfold sequence.size
  unfold size_mod at *
  omega

theorem sequence.size_lt (s : sequence T) : s.size < size_mod := by
  unfold sequence.size
  exact Nat.mod_lt _ (by unfold size_mod; positivity)

theorem sequence.length_elems (s : sequence T) (hs : s.wf) : s.elems.length = s.size := by
  rw [sequence.size_of_wf s hs]
  obtain ⟨h1, h2, h3⟩ := hs
  unfold sequence.elems
  simp only [List.length_take, List.length_drop]
  omega

theorem sequence.elems_getElem? (s : sequence T) (hs : s.wf) (pos : Nat) (hpos : pos < s.size) :
    s.elems[pos]? = s.buf[s.lptr + pos]? := by
  rw [sequence.size_of_wf s hs] at hpos
  unfold sequence.elems
  rw [List.getElem?_take_of_lt hpos, List.getElem?_drop]

theorem sequence.subseq_error_iff (s : sequence T) (pos count : Nat) :
    s.subseq pos count = .error .out_of_range ↔ pos ≥ s.size := by
  unfold sequence.subseq
  by_cases h : pos ≥ s.size
  · simp [h]
  · simp [h]

/-- The result of `subseq` on a view and a count whose sum with `pos` does not wrap (or `npos`):
the view `[begin + pos, begin + pos + min count (size - pos))` of the same buffer. -/
theorem sequence.subseq_no_wrap (s : sequence T) (pos count : Nat)
    (hpos : pos < s.size) (hc : count = npos ∨ pos + count < size_mod) :
    s.subseq pos count
      = .ok (sequence.make_seq s.buf (s.lptr + pos) (s.lptr + pos + min count (s.size - pos))) := by
  have hlt := sequence.size_lt s
  unfold sequence.subseq sequence.begin
  rw [if_neg (by omega)]
  simp only []
  unfold size_mod npos at *
  rcases hc with hc | hc
  · subst hc
    have : min (2 ^ 64 - 1) (s.size - pos) = s.size - pos := by omega
    simp only [ne_eq, not_true_eq_false, false_and, if_false, this]
    congr 2
    omega
  · rw [Nat.mod_eq_of_lt hc]
    by_cases h1 : count ≠ 2 ^ 64 - 1 ∧ pos + count < s.size
    · rw [if_pos h1]
      congr 2
      omega
    · rw [if_neg h1]
      congr 2
      omega

/-- The loop of `find` does not depend on the iteration bound once it is at least
`bound - i`: the loop is left through its own test `i < bound`. -/
theorem sequence.find_loop_fuel (tr : Traits T) (s v : sequence T) (v_size bound : Nat)
    (n i : Nat) (hn : bound - i ≤ n) :
    sequence.find_loop tr s v v_size bound n i
      = sequence.find_loop tr s v v_size bound (bound - i) i := by
  induction n generalizing i with
  | zero =>
    have h0 : bound - i = 0 := by omega
    rw [h0]
  | succ n ih =>
    by_cases hi : i < bound
    · obtain ⟨m, hm⟩ : ∃ m, bound - i = m + 1 := ⟨bound - i - 1, by omega⟩
      have hm1 : bound - (i + 1) = m := by omega
      rw [hm]
      unfold sequence.find_loop
      rw [ih (i + 1) (by omega), hm1]
    · have h0 : bound - i = 0 := by omega
      rw [h0]
      unfold sequence.find_loop
      rw [if_neg hi]

/-! ## The operations `find`, `rfind`, `subseq`, `at`, `copy` -/

/-- C1 (the code differs): the claim has `find` return the smallest `i >= pos` with
`subseq(i, v.size()) == v`, the alignment `i == size() - v.size()` included.  On the
view `1 2 3`, the needle `2 3` and `pos = 0`, index `1` is such a match (and the
only one), and `find` returns `npos`: the loop test `i < size() - v_size` leaves
the last alignment out. -/
theorem find_skips_last_alignment :
    (sequence.of_buf [(1 : Int), 2, 3] 3).find int_traits (sequence.of_buf [2, 3] 2) 0
      = .ok npos ∧
    (∃ sub, (sequence.of_buf [(1 : Int), 2, 3] 3).subseq 1 2 = .ok sub ∧
      sequence.op_eq int_traits sub (sequence.of_buf [2, 3] 2) = true) ∧
    (0 ≤ 1 ∧ 1 = (sequence.of_buf [(1 : Int), 2, 3] 3).size
      - (sequence.of_buf [(2 : Int), 3] 2).size) :=
  ⟨by decide, ⟨_, rfl, by decide⟩, by decide, by decide⟩

/-- C2 (the code differs): the claim has `find` return `npos` without an out-of-range
`subseq` call when the needle is longer than what is left of the view.  On a view
of size 3, a needle of size 5 and `pos = 0`, `size() - v_size` wraps to
`2 ^ 64 - 2`, the loop reaches `i = 3`, `subseq(3, 5)` throws `std::out_of_range`
and the `noexcept` function ends in `std::terminate`. -/
theorem find_long_needle_terminates :
    (sequence.of_buf [(1 : Int), 2, 3] 3).find int_traits (sequence.of_buf [1, 2, 3, 4, 5] 5) 0
      = .error .terminate ∧
    (sequence.of_buf [(1 : Int), 2, 3] 3).subseq 3 5 = .error .out_of_range ∧
    ((sequence.of_buf [(1 : Int), 2, 3] 3).size + size_mod
      - (sequence.of_buf [(1 : Int), 2, 3, 4, 5] 5).size) % size_mod = 2 ^ 64 - 2 ∧
    (sequence.of_buf [(1 : Int), 2, 3, 4, 5] 5).size
      > (sequence.of_buf [(1 : Int), 2, 3] 3).size - 0 :=
  ⟨by decide, by decide, by decide, by decide⟩

/-- C3 (the code differs): the claim has `rfind(v, pos)` return the largest match
`i <= pos`.  On the view `1 2 1 2`, the needle `1 2` and `pos = 0`, index `0`
matches and `rfind` returns `2`; on the view `3 1 2` no index `<= 0` matches
and `rfind` returns `1`: the parameter is overwritten by
`std::min(size(), npos)` before the loop. -/
theorem rfind_ignores_pos :
    (sequence.of_buf [(1 : Int), 2, 1, 2] 4).rfind int_traits (sequence.of_buf [1, 2] 2) 0
      = .ok 2 ∧
    (∃ sub, (sequence.of_buf [(1 : Int), 2, 1, 2] 4).subseq 0 2 = .ok sub ∧
      sequence.op_eq int_traits sub (sequence.of_buf [1, 2] 2) = true) ∧
    (sequence.of_buf [(3 : Int), 1, 2] 3).rfind int_traits (sequence.of_buf [1, 2] 2) 0
      = .ok 1 ∧
    (∃ sub, (sequence.of_buf [(3 : Int), 1, 2] 3).subseq 0 2 = .ok sub ∧
      sequence.op_eq int_traits sub (sequence.of_buf [1, 2] 2) = false) :=
  ⟨by decide, ⟨_, rfl, by decide⟩, by decide, ⟨_, rfl, by decide⟩⟩

/-- C4 (the code differs): the claim has `subseq(pos, count)` hold
`min(count, size() - pos)` elements for every `count`, also when `pos + count`
exceeds the largest `size_type`.  On a view of size 4, `pos = 2` and
`count = 2 ^ 64 - 2` (not `npos`), `pos + count` wraps to `0`, which is below
`size()`, and the result is `[begin + 2, begin + 0)`: its end is before its
begin and its `size()` is `2 ^ 64 - 2`, where the claim has 2 elements. -/
theorem subseq_count_wraps :
    (sequence.of_buf [(1 : Int), 2, 1, 2] 4).subseq 2 (2 ^ 64 - 2)
      = .ok (sequence.make_seq [1, 2, 1, 2] 2 0) ∧
    ¬ (sequence.make_seq [(1 : Int), 2, 1, 2] 2 0).wf ∧
    (sequence.make_seq [(1 : Int), 2, 1, 2] 2 0).size = 2 ^ 64 - 2 ∧
    min (2 ^ 64 - 2) ((sequence.of_buf [(1 : Int), 2, 1, 2] 4).size - 2) = 2 ∧
    (sequence.of_buf [(1 : Int), 2, 1, 2] 4).wf ∧
    2 < (sequence.of_buf [(1 : Int), 2, 1, 2] 4).size ∧ 2 ^ 64 - 2 < size_mod :=
  ⟨by decide, by decide, by decide, by decide, by decide, by decide, by decide⟩

/-- C5: on a view `s`, each of `s.at(pos)`, `s.subseq(pos, count)` and
`s.copy(dest, count, pos)` fails with `std::out_of_range` if and only if
`pos >= s.size()`; on an empty view every `pos` fails; and for `pos < s.size()`
none of the three fails and `at(pos)` returns the element at offset `pos` of the
view, which is `*(lptr + pos)`. -/
theorem out_of_range_iff (tr : Traits T) (s : sequence T) (dest : List T) (pos count : Nat)
    (hs : s.wf) :
    (s.at pos = .error .out_of_range ↔ pos ≥ s.size) ∧
    (s.subseq pos count = .error .out_of_range ↔ pos ≥ s.size) ∧
    (s.copy tr dest count pos = .error .out_of_range ↔ pos ≥ s.size) ∧
    (s.empty = true → s.at pos = .error .out_of_range ∧
      s.subseq pos count = .error .out_of_range ∧
      s.copy tr dest count pos = .error .out_of_range) ∧
    (pos < s.size →
      (∃ x, s.at pos = .ok x ∧ s.elems[pos]? = some x ∧ s.buf[s.lptr + pos]? = some x) ∧
      (∃ sub, s.subseq pos count = .ok sub) ∧
      (∃ r, s.copy tr dest count pos = .ok r)) := by
  have hsz := sequence.size_of_wf s hs
  have hsub := sequence.subseq_error_iff s pos count
  have hat : pos < s.size →
      ∃ x, s.at pos = .ok x ∧ s.elems[pos]? = some x ∧ s.buf[s.lptr + pos]? = some x := by
    intro hpos
    have hlt : s.lptr + pos < s.buf.length := by
      obtain ⟨h1, h2, h3⟩ := hs
      omega
    refine ⟨s.buf[s.lptr + pos], ?_, ?_, ?_⟩
    · unfold sequence.at sequence.index
      rw [if_neg (by omega), List.getElem?_eq_getElem hlt]
    · rw [sequence.elems_getElem? s hs pos hpos, List.getElem?_eq_getElem hlt]
    · rw [List.getElem?_eq_getElem hlt]
  have hsubok : pos < s.size → ∃ sub, s.subseq pos count = .ok sub := by
    intro hpos
    unfold sequence.subseq
    rw [if_neg (by omega)]
    exact ⟨_, rfl⟩
  have hcopy : s.copy tr dest count pos = .error .out_of_range ↔ pos ≥ s.size := by
    constructor
    · intro h
      by_contra hpos
      obtain ⟨sub, hsub1⟩ := hsubok (by omega)
      unfold sequence.copy at h
      rw [hsub1] at h
      cases h
    · intro hpos
      unfold sequence.copy
      rw [hsub.mpr hpos]
  have hatx : s.at pos = .error .out_of_range ↔ pos ≥ s.size := by
    constructor
    · intro h
      by_contra hpos
      obtain ⟨x, hx, _⟩ := hat (by omega)
      rw [hx] at h
      cases h
    · intro hpos
      unfold sequence.at
      rw [if_pos hpos]
  refine ⟨hatx, hsub, hcopy, ?_, ?_⟩
  · intro he
    have h0 : pos ≥ s.size := by
      unfold sequence.empty at he
      have : s.lptr = s.rptr := by simpa using he
      omega
    exact ⟨hatx.mpr h0, hsub.mpr h0, hcopy.mpr h0⟩
  · intro hpos
    refine ⟨hat hpos, hsubok hpos, ?_⟩
    obtain ⟨sub, hsub1⟩ := hsubok hpos
    unfold sequence.copy
    rw [hsub1]
    exact ⟨_, rfl⟩

/-- C5 at the view `A B C D I` of the tests (as character codes): `at(4)` is `I`,
`at(5)` is out of range. -/
theorem out_of_range_iff_witness :
    (sequence.of_buf [(65 : Int), 66, 67, 68, 73] 5).wf ∧
    (sequence.of_buf [(65 : Int), 66, 67, 68, 73] 5).at 4 = .ok 73 ∧
    (sequence.of_buf [(65 : Int), 66, 67, 68, 73] 5).at 5 = .error .out_of_range := by
  have h := out_of_range_iff int_traits (sequence.of_buf [(65 : Int), 66, 67, 68, 73] 5)
    [] 5 1 (by decide)
  exact ⟨by decide, by decide, h.1.mpr (by decide)⟩

/-! ## Comparison -/

theorem Traits.strict_weak.asymm {tr : Traits T} (hsw : tr.strict_weak) (x y : T)
    (h : tr.lt x y = true) : tr.lt y x = false := by
  by_contra h1
  have h2 : tr.lt y x = true := by simpa using h1
  have h3 := hsw.trans x y x h h2
  rw [hsw.irrefl x] at h3
  cases h3

theorem int_traits_strict_weak : int_traits.strict_weak where
  irrefl := by intro x; simp [int_traits]
  trans := by intro x y z; simp only [int_traits, decide_eq_true_eq]; omega
  incomp_trans := by
    intro x y z
    simp only [int_traits, decide_eq_false_iff_not]
    omega
  eq_iff := by
    intro x y
    simp only [int_traits, decide_eq_true_eq, decide_eq_false_iff_not]
    omega

theorem std_equal_length (p : T → T → Bool) (a b : List T) (h : std_equal p a b = true) :
    a.length = b.length := by
  induction a generalizing b with
  | nil => cases b with
    | nil => rfl
    | cons y ys => simp [std_equal] at h
  | cons x xs ih => cases b with
    | nil => simp [std_equal] at h
    | cons y ys =>
      simp only [std_equal, Bool.and_eq_true] at h
      simp [ih ys h.2]

theorem std_lex_asymm {tr : Traits T} (hsw : tr.strict_weak) (a b : List T)
    (h : std_lexicographical_compare tr.lt a b = true) :
    std_lexicographical_compare tr.lt b a = false := by
  induction a generalizing b with
  | nil => cases b with
    | nil => simp [std_lexicographical_compare]
    | cons y ys => simp [std_lexicographical_compare]
  | cons x xs ih => cases b with
    | nil => simp [std_lexicographical_compare] at h
    | cons y ys =>
      unfold std_lexicographical_compare at h ⊢
      by_cases hxy : tr.lt x y = true
      · have hyx := hsw.asymm x y hxy
        simp [hxy, hyx]
      · have hxy1 : tr.lt x y = false := by simpa using hxy
        by_cases hyx : tr.lt y x = true
        · simp [hxy1, hyx] at h
        · have hyx1 : tr.lt y x = false := by simpa using hyx
          simp only [hxy1, hyx1, Bool.false_eq_true, if_false] at h ⊢
          exact ih ys h

theorem std_equal_not_lex {tr : Traits T} (hsw : tr.strict_weak) (a b : List T)
    (h : std_equal tr.eq a b = true) :
    std_lexicographical_compare tr.lt a b = false ∧
    std_lexicographical_compare tr.lt b a = false := by
  induction a generalizing b with
  | nil => cases b with
    | nil => simp [std_lexicographical_compare]
    | cons y ys => simp [std_equal] at h
  | cons x xs ih => cases b with
    | nil => simp [std_equal] at h
    | cons y ys =>
      simp only [std_equal, Bool.and_eq_true] at h
      obtain ⟨h1, h2⟩ := (hsw.eq_iff x y).mp h.1
      unfold std_lexicographical_compare
      simp only [h1, h2, Bool.false_eq_true, if_false]
      exact ih ys h.2

theorem std_equal_of_not_lex {tr : Traits T} (hsw : tr.strict_weak) (a b : List T)
    (h1 : std_lexicographical_compare tr.lt a b = false)
    (h2 : std_lexicographical_compare tr.lt b a = false) :
    std_equal tr.eq a b = true := by
  induction a generalizing b with
  | nil => cases b with
    | nil => simp [std_equal]
    | cons y ys => simp [std_lexicographical_compare] at h1
  | cons x xs ih => cases b with
    | nil => simp [std_lexicographical_compare] at h2
    | cons y ys =>
      unfold std_lexicographical_compare at h1 h2
      by_cases hxy : tr.lt x y = true
      · simp [hxy] at h1
      · have hxy1 : tr.lt x y = false := by simpa using hxy
        by_cases hyx : tr.lt y x = true
        · simp [hyx] at h2
        · have hyx1 : tr.lt y x = false := by simpa using hyx
          simp only [hxy1, hyx1, Bool.false_eq_true, if_false] at h1 h2
          simp only [std_equal, Bool.and_eq_true]
          exact ⟨(hsw.eq_iff x y).mpr ⟨hxy1, hyx1⟩, ih ys h1 h2⟩

theorem sequence.op_eq_iff (tr : Traits T) (a b : sequence T) (ha : a.wf) (hb : b.wf) :
    sequence.op_eq tr a b = true ↔ std_equal tr.eq a.elems b.elems = true := by
  unfold sequence.op_eq
  constructor
  · intro h
    by_cases hsz : a.size ≠ b.size
    · simp [hsz] at h
    · simpa [hsz] using h
  · intro h
    have hl := std_equal_length tr.eq _ _ h
    rw [sequence.length_elems a ha, sequence.length_elems b hb] at hl
    simp [hl, h]

/-- The three tests of `compare` exclude one another and one of them holds. -/
theorem sequence.op_trichotomy {tr : Traits T} (hsw : tr.strict_weak) (a b : sequence T)
    (ha : a.wf) (hb : b.wf) :
    (sequence.op_lt tr a b = true ∧ sequence.op_eq tr a b = false
      ∧ sequence.op_gt tr a b = false) ∨
    (sequence.op_lt tr a b = false ∧ sequence.op_eq tr a b = true
      ∧ sequence.op_gt tr a b = false) ∨
    (sequence.op_lt tr a b = false ∧ sequence.op_eq tr a b = false
      ∧ sequence.op_gt tr a b = true) := by
  have hiff := sequence.op_eq_iff tr a b ha hb
  unfold sequence.op_gt sequence.op_lt at *
  cases hE : sequence.op_eq tr a b
  · cases hL : std_lexicographical_compare tr.lt a.elems b.elems
    · cases hG : std_lexicographical_compare tr.lt b.elems a.elems
      · have := hiff.mpr (std_equal_of_not_lex hsw _ _ hL hG)
        rw [hE] at this
        cases this
      · simp
    · have := std_lex_asymm hsw _ _ hL
      simp [this]
  · obtain ⟨h1, h2⟩ := std_equal_not_lex hsw _ _ (hiff.mp hE)
    simp [h1, h2]

/-- The operators `operator>=` and `operator<=` are the same function of their arguments. -/
theorem sequence.op_ge_eq_op_le (tr : Traits T) (a b : sequence T) :
    sequence.op_ge tr a b = sequence.op_le tr a b := rfl

/-- The derived operators `>` and `<=` agree with their definitions from `<` and
`==`. -/
theorem sequence.op_gt_le_derived {tr : Traits T} (hsw : tr.strict_weak) (a b : sequence T)
    (ha : a.wf) (hb : b.wf) :
    (sequence.op_gt tr a b = true ↔ sequence.op_lt tr b a = true) ∧
    (sequence.op_le tr a b = true ↔
      (sequence.op_lt tr a b = true ∨ sequence.op_eq tr a b = true)) := by
  refine ⟨Iff.rfl, ?_⟩
  unfold sequence.op_le
  rcases sequence.op_trichotomy hsw a b ha hb with h | h | h <;>
    simp [h.1, h.2.1, h.2.2]

/-- C6: for a policy whose `lt` is a strict weak ordering consistent with `eq` and
views `a`, `b`: `a.compare(b)` returns `-1` exactly when `a < b`, `0` exactly when
`a == b`, `+1` exactly when `a > b`; exactly one of the three holds, and the
`assert(false)` at the end is not reached. -/
theorem compare_sign {tr : Traits T} (hsw : tr.strict_weak) (a b : sequence T)
    (ha : a.wf) (hb : b.wf) :
    (sequence.compare tr a b = .ok (-1) ↔ sequence.op_lt tr a b = true) ∧
    (sequence.compare tr a b = .ok 0 ↔ sequence.op_eq tr a b = true) ∧
    (sequence.compare tr a b = .ok 1 ↔ sequence.op_gt tr a b = true) ∧
    ((sequence.op_lt tr a b = true ∧ sequence.op_eq tr a b = false
        ∧ sequence.op_gt tr a b = false) ∨
      (sequence.op_lt tr a b = false ∧ sequence.op_eq tr a b = true
        ∧ sequence.op_gt tr a b = false) ∨
      (sequence.op_lt tr a b = false ∧ sequence.op_eq tr a b = false
        ∧ sequence.op_gt tr a b = true)) ∧
    sequence.compare tr a b ≠ .error .assertion := by
  have h3 := sequence.op_trichotomy hsw a b ha hb
  refine ⟨?_, ?_, ?_, h3, ?_⟩ <;>
    unfold sequence.compare <;>
    rcases h3 with h | h | h <;>
    simp [h.1, h.2.1, h.2.2]

/-- C6 at the views `aba` and `abc` of the tests (as character codes). -/
theorem compare_sign_witness :
    sequence.compare int_traits (sequence.of_buf [97, 98, 97] 3) (sequence.of_buf [97, 98, 99] 3)
      = .ok (-1) ∧
    sequence.compare int_traits (sequence.of_buf [97, 98, 99] 3) (sequence.of_buf [97, 98, 97] 3)
      = .ok 1 ∧
    sequence.compare int_traits (sequence.of_buf [97, 98, 97] 3) (sequence.of_buf [97, 98, 97] 3)
      = .ok 0 :=
  ⟨(compare_sign int_traits_strict_weak (sequence.of_buf [97, 98, 97] 3)
      (sequence.of_buf [97, 98, 99] 3) (by decide) (by decide)).1.mpr (by decide),
   (compare_sign int_traits_strict_weak (sequence.of_buf [97, 98, 99] 3)
      (sequence.of_buf [97, 98, 97] 3) (by decide) (by decide)).2.2.1.mpr (by decide),
   (compare_sign int_traits_strict_weak (sequence.of_buf [97, 98, 97] 3)
      (sequence.of_buf [97, 98, 97] 3) (by decide) (by decide)).2.1.mpr (by decide)⟩

/-- C7 (the code differs): the claim has `a >= b` hold exactly when `a > b` or
`a == b`, that is when not `a < b`.  On the one-element views `a = 2` and
`b = 1`, `a > b` holds and `a < b` does not, and `a >= b` is `false`:
`operator>=` returns `!(rhs < lhs)`, which is `operator<=`. -/
theorem op_ge_is_op_le :
    sequence.op_ge int_traits (sequence.of_buf [2] 1) (sequence.of_buf [1] 1) = false ∧
    sequence.op_gt int_traits (sequence.of_buf [2] 1) (sequence.of_buf [1] 1) = true ∧
    sequence.op_lt int_traits (sequence.of_buf [2] 1) (sequence.of_buf [1] 1) = false ∧
    sequence.op_eq int_traits (sequence.of_buf [2] 1) (sequence.of_buf [1] 1) = false ∧
    sequence.op_ge int_traits (sequence.of_buf [1] 1) (sequence.of_buf [2] 1) = true :=
  ⟨by decide, by decide, by decide, by decide, by decide⟩

/-! ## The guard -/

theorem Store.write_same (st : Store T) (a : Nat) (x : T) : st.write a x a = x := by
  simp [Store.write]

theorem Store.write_write_self (st : Store T) (a : Nat) (x : T) :
    (st.write a x).write a (st a) = st := by
  funext b
  by_cases h : b = a
  · simp [Store.write, h]
  · simp [Store.write, h]

/-- The call `set` on a guard that holds nothing: the snapshot is the value of `var`. -/
theorem set_restore_guard.set_empty (g : set_restore_guard T) (st : Store T) (var : Nat)
    (r : Ref T) (hg : g.containsSmth = false) :
    g.set st var r
      = .ok ({ old_data := some (st var), dataptr := .addr var, containsSmth := true },
          st.write var (r.read st (st var))) := by
  unfold set_restore_guard.set
  simp [hg]

/-- The call `set` on a guard that holds the snapshot `x` of the variable at `a`: `x` is
written back to `a` before `var` is read. -/
theorem set_restore_guard.set_holding (g : set_restore_guard T) (st : Store T) (a var : Nat)
    (x : T) (r : Ref T) (hg : g.holding a x) :
    g.set st var r
      = .ok ({ old_data := some ((st.write a x) var), dataptr := .addr var, containsSmth := true },
          (st.write a x).write var (r.read (st.write a x) ((st.write a x) var))) := by
  obtain ⟨h1, h2, h3⟩ := hg
  unfold set_restore_guard.set set_restore_guard.restore write_back
  simp [h1, h2, h3]

/-- C8: if `target` holds `X`, constructing a guard with `(target, Y)` leaves
`target == Y`, the guard `Holding` and `old_value() == X`; destroying that guard
leaves `target == X` (and the other variables as they were). -/
theorem guard_scope_restores (st : Store T) (target : Nat) (X Y : T) (hX : st target = X) :
    (set_restore_guard.ctor st target Y).2 target = Y ∧
    (set_restore_guard.ctor st target Y).1.to_bool = true ∧
    (set_restore_guard.ctor st target Y).1.old_value = .ok X ∧
    ∃ st2, (set_restore_guard.ctor st target Y).1.dtor (set_restore_guard.ctor st target Y).2
        = .ok st2 ∧ st2 target = X ∧ st2 = st := by
  refine ⟨?_, rfl, ?_, ?_⟩
  · simp [set_restore_guard.ctor, Store.write]
  · simp [set_restore_guard.ctor, set_restore_guard.old_value, hX]
  · refine ⟨st, ?_, hX, rfl⟩
    simp only [set_restore_guard.ctor, set_restore_guard.dtor, write_back]
    rw [Store.write_write_self]

/-- C8 at `int v = 5; { Guard g(v, 10); }` of the spec. -/
theorem guard_scope_restores_witness :
    store_of 5 0 = 5 ∧
    (set_restore_guard.ctor (store_of 5) 0 10).2 0 = 10 ∧
    ∃ st2, (set_restore_guard.ctor (store_of 5) 0 10).1.dtor
        (set_restore_guard.ctor (store_of 5) 0 10).2 = .ok st2 ∧ st2 0 = 5 :=
  have h := guard_scope_restores (store_of 5) 0 5 10 (by decide)
  ⟨by decide, h.1, h.2.2.2.imp (fun _ h2 => ⟨h2.1, h2.2.1⟩)⟩

/-- C10 (as stated, refuted): a guard constructed on a target holding `5` with the
new value `10` is `Holding`; immediately before `g.set(target, 20)` the target
holds `10`, and after it `g.old_value()` is `5`, the original value. -/
theorem set_old_value_is_original :
    (set_restore_guard.ctor (store_of 5) 0 10).2 0 = 10 ∧
    ∃ g1 st1, (set_restore_guard.ctor (store_of 5) 0 10).1.set
        (set_restore_guard.ctor (store_of 5) 0 10).2 0 (.val 20) = .ok (g1, st1) ∧
      g1.old_value = .ok 5 ∧
      g1.old_value ≠ .ok ((set_restore_guard.ctor (store_of 5) 0 10).2 0) :=
  ⟨by decide, _, _, set_restore_guard.set_holding _ _ 0 0 5 (.val 20) ⟨rfl, rfl, rfl⟩,
    by decide, by decide⟩

/-- C10 (amended): immediately after `g.set(target, v)`, `target` holds `v` (for
`v` a temporary) and `g.old_value()` is: for an `Empty` guard, the value `target`
held immediately before the call; for a guard already `Holding` the snapshot `x`
of the same `target`, that snapshot `x`, which `set` writes back before it takes
the new snapshot.  The value of `g.old_value()` is the same whatever the
argument refers to. -/
theorem set_old_value (g : set_restore_guard T) (st : Store T) (target : Nat) (x v : T)
    (hg : g.containsSmth = false ∨ g.holding target x) :
    (∃ g1 st1, g.set st target (.val v) = .ok (g1, st1) ∧ st1 target = v ∧
      g1.old_value = .ok (if g.containsSmth = true then x else st target)) ∧
    ∀ r : Ref T, ∃ g1 st1, g.set st target r = .ok (g1, st1) ∧
      g1.old_value = .ok (if g.containsSmth = true then x else st target) := by
  rcases hg with hg | hg
  · refine ⟨⟨_, _, set_restore_guard.set_empty g st target (.val v) hg,
      Store.write_same _ _ _, ?_⟩, fun r => ⟨_, _, set_restore_guard.set_empty g st target r hg, ?_⟩⟩
    · simp [set_restore_guard.old_value, hg]
    · simp [set_restore_guard.old_value, hg]
  · refine ⟨⟨_, _, set_restore_guard.set_holding g st target target x (.val v) hg,
      Store.write_same _ _ _, ?_⟩,
      fun r => ⟨_, _, set_restore_guard.set_holding g st target target x r hg, ?_⟩⟩
    · simp [set_restore_guard.old_value, hg.1, Store.write]
    · simp [set_restore_guard.old_value, hg.1, Store.write]

/-- C10 (amended) at a default-constructed guard and at a guard constructed on a
target holding `5` with the new value `10`. -/
theorem set_old_value_witness :
    (∃ g1 st1, (set_restore_guard.ctor_empty : set_restore_guard Int).set (store_of 5) 0
        (.val 10) = .ok (g1, st1) ∧ st1 0 = 10 ∧ g1.old_value = .ok 5) ∧
    (∃ g1 st1, (set_restore_guard.ctor (store_of 5) 0 10).1.set
        (set_restore_guard.ctor (store_of 5) 0 10).2 0 (.val 20) = .ok (g1, st1) ∧
      st1 0 = 20 ∧ g1.old_value = .ok 5) :=
  ⟨(set_old_value set_restore_guard.ctor_empty (store_of 5) 0 0 10 (Or.inl rfl)).1,
   (set_old_value (set_restore_guard.ctor (store_of 5) 0 10).1
    (set_restore_guard.ctor (store_of 5) 0 10).2 0 5 20 (Or.inr ⟨rfl, rfl, rfl⟩)).1⟩

/-! ## Search: what `find` and `rfind` return -/

theorem sequence.subseq_ok (s : sequence T) (pos count : Nat) (hpos : pos < s.size) :
    ∃ sub, s.subseq pos count = .ok sub := by
  unfold sequence.subseq
  rw [if_neg (by omega)]
  exact ⟨_, rfl⟩

theorem sequence.lt_size_of_subseq_ok (s sub : sequence T) (pos count : Nat)
    (h : s.subseq pos count = .ok sub) : pos < s.size := by
  by_contra hpos
  rw [(sequence.subseq_error_iff s pos count).mpr (by omega)] at h
  cases h

theorem sequence.match_at_iff (tr : Traits T) (h v : sequence T) (i : Nat) :
    sequence.match_at tr h v i = true ↔
      ∃ sub, h.subseq i v.size = .ok sub ∧ sequence.op_eq tr sub v = true := by
  unfold sequence.match_at
  cases hsub : h.subseq i v.size with
  | error e => simp
  | ok sub => simp

/-- A value the loop of `find` returns is `npos` or an index from `i` on, below
`bound`, at which the test of the loop holds. -/
theorem sequence.find_loop_result (tr : Traits T) (s v : sequence T) (v_size bound : Nat)
    (n i r : Nat) (h : sequence.find_loop tr s v v_size bound n i = .ok r) :
    r = npos ∨ (i ≤ r ∧ r < bound ∧
      ∃ sub, s.subseq r v_size = .ok sub ∧ sequence.op_eq tr sub v = true) := by
  induction n generalizing i with
  | zero =>
    unfold sequence.find_loop at h
    injection h with h
    exact Or.inl h.symm
  | succ n ih =>
    unfold sequence.find_loop at h
    by_cases hi : i < bound
    · rw [if_pos hi] at h
      cases hsub : s.subseq i v_size with
      | error e =>
        rw [hsub] at h
        cases h
      | ok sub =>
        rw [hsub] at h
        by_cases he : sequence.op_eq tr sub v = true
        · simp only [he, if_true] at h
          injection h with h
          subst h
          exact Or.inr ⟨le_refl _, hi, sub, hsub, he⟩
        · simp only [he, Bool.false_eq_true, if_false] at h
          rcases ih (i + 1) h with h1 | ⟨h1, h2, h3⟩
          · exact Or.inl h1
          · exact Or.inr ⟨by omega, h2, h3⟩
    · rw [if_neg hi] at h
      injection h with h
      exact Or.inl h.symm

/-- The loop of `find` returns a value when `bound` is at most `size()`: no `subseq`
call of the loop throws. -/
theorem sequence.find_loop_ok (tr : Traits T) (s v : sequence T) (v_size bound : Nat)
    (hb : bound ≤ s.size) (n i : Nat) :
    ∃ r, sequence.find_loop tr s v v_size bound n i = .ok r := by
  induction n generalizing i with
  | zero => exact ⟨npos, rfl⟩
  | succ n ih =>
    unfold sequence.find_loop
    by_cases hi : i < bound
    · rw [if_pos hi]
      obtain ⟨sub, hsub⟩ := sequence.subseq_ok s i v_size (by omega)
      rw [hsub]
      by_cases he : sequence.op_eq tr sub v = true
      · simp only [he, if_true]
        exact ⟨i, rfl⟩
      · simp only [he, Bool.false_eq_true, if_false]
        exact ih (i + 1)
    · rw [if_neg hi]
      exact ⟨npos, rfl⟩

/-- The loop of `rfind` started at `n <= size()` returns the largest index below `n`
at which the test holds, and `npos` when there is none. -/
theorem sequence.rfind_loop_result (tr : Traits T) (s v : sequence T) (n : Nat)
    (hn : n ≤ s.size) :
    ∃ r, sequence.rfind_loop tr s v v.size n = .ok r ∧
      ((r < n ∧ sequence.match_at tr s v r = true ∧
          ∀ j, r < j → j < n → sequence.match_at tr s v j = false) ∨
        (r = npos ∧ ∀ j, j < n → sequence.match_at tr s v j = false)) := by
  induction n with
  | zero => exact ⟨npos, rfl, Or.inr ⟨rfl, fun j hj => absurd hj (Nat.not_lt_zero j)⟩⟩
  | succ n ih =>
    obtain ⟨sub, hsub⟩ := sequence.subseq_ok s n v.size (by omega)
    have hm : sequence.match_at tr s v n = sequence.op_eq tr sub v := by
      unfold sequence.match_at
      rw [hsub]
    unfold sequence.rfind_loop
    rw [hsub]
    by_cases he : sequence.op_eq tr sub v = true
    · simp only [he, if_true]
      refine ⟨n, rfl, Or.inl ⟨by omega, by rw [hm, he], ?_⟩⟩
      intro j h1 h2
      omega
    · simp only [he, Bool.false_eq_true, if_false]
      have hmf : sequence.match_at tr s v n = false := by
        rw [hm]
        simpa using he
      obtain ⟨r, hr, hcase⟩ := ih (by omega)
      refine ⟨r, hr, ?_⟩
      rcases hcase with ⟨h1, h2, h3⟩ | ⟨h1, h2⟩
      · refine Or.inl ⟨by omega, h2, ?_⟩
        intro j hj1 hj2
        by_cases hjn : j = n
        · rw [hjn]
          exact hmf
        · exact h3 j hj1 (by omega)
      · refine Or.inr ⟨h1, ?_⟩
        intro j hj
        by_cases hjn : j = n
        · rw [hjn]
          exact hmf
        · exact h2 j (by omega)

/-- C12: whenever `a.find(v, pos)` returns an index `i` different from `npos`, then
`pos <= i`, `i < a.size()` and `a.subseq(i, v.size()) == v` under the equality of
the policy. -/
theorem find_result_matches (tr : Traits T) (a v : sequence T) (pos i : Nat)
    (h : sequence.find tr a v pos = .ok i) (hi : i ≠ npos) :
    pos ≤ i ∧ i < a.size ∧
      ∃ sub, a.subseq i v.size = .ok sub ∧ sequence.op_eq tr sub v = true := by
  unfold sequence.find at h
  rcases sequence.find_loop_result tr a v _ _ _ _ _ h with h1 | ⟨h1, _, sub, h3, h4⟩
  · exact absurd h1 hi
  · exact ⟨h1, sequence.lt_size_of_subseq_ok a sub i v.size h3, sub, h3, h4⟩

/-- C12 at the case-insensitive `find` of the tests: `Abbbbbb`, needle `ab`, index
`0`. -/
theorem find_result_matches_witness :
    sequence.find case_insensitive_char_traits (sequence.of_buf [65, 98, 98, 98, 98, 98, 98] 7)
      (sequence.of_buf [97, 98] 2) 0 = .ok 0 ∧
    ∃ sub, (sequence.of_buf [65, 98, 98, 98, 98, 98, 98] 7).subseq 0
        (sequence.of_buf [97, 98] 2).size = .ok sub ∧
      sequence.op_eq case_insensitive_char_traits sub (sequence.of_buf [97, 98] 2) = true :=
  ⟨by decide,
   (find_result_matches case_insensitive_char_traits
      (sequence.of_buf [65, 98, 98, 98, 98, 98, 98] 7) (sequence.of_buf [97, 98] 2) 0 0
      (by decide) (by decide)).2.2⟩

/-- C13: `h.rfind(v)` with the default position returns the largest index
`i < h.size()` such that `h.subseq(i, v.size()) == v` under the equality of the
policy, and `npos` (which is no index of `h`) when no index matches. -/
theorem rfind_default_last_match (tr : Traits T) (h v : sequence T) :
    ∃ r, sequence.rfind tr h v = .ok r ∧
      ((r < h.size ∧ r ≠ npos ∧ sequence.match_at tr h v r = true ∧
          ∀ j, r < j → j < h.size → sequence.match_at tr h v j = false) ∨
        (r = npos ∧ ∀ j, j < h.size → sequence.match_at tr h v j = false)) := by
  have hlt := sequence.size_lt h
  have hmin : min h.size npos = h.size := by
    unfold npos
    unfold size_mod at hlt
    omega
  unfold sequence.rfind
  simp only [hmin]
  obtain ⟨r, hr, hcase⟩ := sequence.rfind_loop_result tr h v h.size (le_refl _)
  refine ⟨r, hr, ?_⟩
  rcases hcase with ⟨h1, h2, h3⟩ | h1
  · refine Or.inl ⟨h1, ?_, h2, h3⟩
    unfold npos
    unfold size_mod at hlt
    omega
  · exact Or.inr h1

/-- The tests of `rfind` (seq_tests.cpp:252-260) under the case-insensitive policy:
the last match of `ab` in `AbAB` is `2`, `AbAB` is found in itself at `0`, and
`de` is not found. -/
theorem rfind_tests :
    sequence.rfind case_insensitive_char_traits (sequence.of_buf [65, 98, 65, 66] 4)
      (sequence.of_buf [97, 98] 2) = .ok 2 ∧
    sequence.rfind case_insensitive_char_traits (sequence.of_buf [65, 98, 65, 66] 4)
      (sequence.of_buf [65, 98, 65, 66] 4) = .ok 0 ∧
    sequence.rfind case_insensitive_char_traits (sequence.of_buf [65, 98, 65, 66] 4)
      (sequence.of_buf [100, 101] 2) = .ok npos :=
  ⟨by decide, by decide, by decide⟩

/-- C20: for a needle `v` with `v.size() <= h.size()` and every `pos`, `h.find(v, pos)`
returns `npos` or an index strictly less than `h.size() - v.size()`, the last
alignment not being examined; in particular `h.find(h)` is `npos`, and on an
empty view `find` returns `npos`. -/
theorem find_below_last_alignment (tr : Traits T) (h v : sequence T) (pos : Nat)
    (hv : v.size ≤ h.size) :
    (∃ r, sequence.find tr h v pos = .ok r ∧ (r = npos ∨ r < h.size - v.size)) ∧
    sequence.find tr h h pos = .ok npos ∧
    (h.size = 0 → sequence.find tr h v pos = .ok npos) := by
  have hlt := sequence.size_lt h
  have hb : (h.size + size_mod - v.size) % size_mod = h.size - v.size := by
    unfold size_mod at *
    omega
  have hb0 : (h.size + size_mod - h.size) % size_mod = 0 := by
    unfold size_mod at *
    omega
  have h1 : ∃ r, sequence.find tr h v pos = .ok r ∧ (r = npos ∨ r < h.size - v.size) := by
    unfold sequence.find
    simp only [hb]
    obtain ⟨r, hr⟩ := sequence.find_loop_ok tr h v v.size (h.size - v.size) (by omega)
      (h.size - v.size - pos) pos
    refine ⟨r, hr, ?_⟩
    rcases sequence.find_loop_result tr h v _ _ _ _ _ hr with h2 | ⟨_, h2, _⟩
    · exact Or.inl h2
    · exact Or.inr h2
  refine ⟨h1, ?_, ?_⟩
  · unfold sequence.find
    simp only [hb0, Nat.zero_sub]
    rfl
  · intro h0
    obtain ⟨r, hr, hcase⟩ := h1
    rcases hcase with h2 | h2
    · rw [hr, h2]
    · omega

/-- C20 at the view `1 2 3` and the needle `2 3`, whose only match is the last
alignment. -/
theorem find_below_last_alignment_witness :
    (sequence.of_buf [(2 : Int), 3] 2).size ≤ (sequence.of_buf [(1 : Int), 2, 3] 3).size ∧
    sequence.find int_traits (sequence.of_buf [1, 2, 3] 3) (sequence.of_buf [1, 2, 3] 3) 0
      = .ok npos :=
  ⟨by decide,
   (find_below_last_alignment int_traits (sequence.of_buf [1, 2, 3] 3)
      (sequence.of_buf [2, 3] 2) 0 (by decide)).2.1⟩

/-! ## The guard: `restore` and the destructor on an empty guard, `set` on another variable -/

/-- On a guard whose `dataptr` is not the address of a variable (never assigned, or
`nullptr` after `restore`), `restore` and the destructor write through that
pointer. -/
theorem set_restore_guard.restore_no_target (g : set_restore_guard T) (st : Store T)
    (h : g.dataptr = .uninit ∨ g.dataptr = .null) :
    g.restore st = .error .undefined ∧ g.dtor st = .error .undefined := by
  unfold set_restore_guard.restore set_restore_guard.dtor write_back
  rcases h with h | h <;> rw [h] <;> exact ⟨rfl, rfl⟩

/-- C11 (the code differs): the claim has `restore()` and the destructor be a no-op
on an `Empty` guard.  On a default-constructed guard both write through the
never-assigned `dataptr`; on a guard constructed on a variable holding `5` with
the value `10` and then restored (the variable holds `5` again and the guard is
`Empty`), a second `restore()` and the destructor write through `nullptr`:
neither tests `containsSmth`. -/
theorem restore_on_empty_guard :
    (set_restore_guard.ctor_empty : set_restore_guard Int).containsSmth = false ∧
    (set_restore_guard.ctor_empty : set_restore_guard Int).restore (store_of 5)
      = .error .undefined ∧
    (set_restore_guard.ctor_empty : set_restore_guard Int).dtor (store_of 5)
      = .error .undefined ∧
    ∃ g1 st1, (set_restore_guard.ctor (store_of 5) 0 10).1.restore
        (set_restore_guard.ctor (store_of 5) 0 10).2 = .ok (g1, st1) ∧
      st1 0 = 5 ∧ g1.containsSmth = false ∧ g1.dataptr = .null ∧
      g1.restore st1 = .error .undefined ∧ g1.dtor st1 = .error .undefined :=
  ⟨rfl, rfl, rfl, _, _, rfl, by decide, rfl, rfl, rfl, rfl⟩

theorem sequence.size_make_seq (buf : List T) (l n : Nat) (hn : n < size_mod) :
    (sequence.make_seq buf l (l + n)).size = n := by
  unfold sequence.size sequence.make_seq
  unfold size_mod at *
  simp only
  omega

/-- The result of `copy` for a count whose sum with `pos` does not wrap (or `npos`):
`min(count, size() - pos)` elements are passed to `Traits::copy`, from the
element at offset `pos` on. -/
theorem sequence.copy_no_wrap (tr : Traits T) (s : sequence T) (dest : List T)
    (count pos : Nat) (hpos : pos < s.size) (hc : count = npos ∨ pos + count < size_mod) :
    s.copy tr dest count pos
      = .ok (min count (s.size - pos),
          tr.copy dest (s.buf.drop (s.lptr + pos)) (min count (s.size - pos))) := by
  have hlt := sequence.size_lt s
  unfold sequence.copy
  rw [sequence.subseq_no_wrap s pos count hpos hc]
  simp only
  rw [sequence.size_make_seq _ _ _ (by omega)]
  rfl

/-- The elements `Traits::copy` reads in `copy` are the elements `pos` to
`pos + n - 1` of the view. -/
theorem sequence.take_drop_buf (s : sequence T) (hs : s.wf) (pos n : Nat)
    (hn : pos + n ≤ s.size) :
    (s.buf.drop (s.lptr + pos)).take n = (s.elems.drop pos).take n := by
  rw [sequence.size_of_wf s hs] at hn
  unfold sequence.elems
  rw [List.drop_take, List.take_take, List.drop_drop]
  congr 1
  omega

/-- C14 (the code differs): the claim has `copy(dest, count, pos)` return
`min(count, size() - pos)` for every `count`.  On the view `AbAb` of the tests,
`pos = 2` and `count = 2 ^ 64 - 2`, the claimed value is `2`; `subseq(2, count)`
returns a view whose end is before its begin, and `copy` passes its `size()`,
`2 ^ 64 - 2`, to `Traits::copy` as the number of elements to transfer; it is
the value `copy` returns when the policy's `copy` returns (the one of the
tests runs past the end of both buffers with that count). -/
theorem copy_count_wraps :
    (∃ d, sequence.copy case_insensitive_assign_char_traits (sequence.of_buf [65, 98, 65, 98] 4)
      [48, 48, 48, 48] (2 ^ 64 - 2) 2 = .ok (2 ^ 64 - 2, d)) ∧
    min (2 ^ 64 - 2) ((sequence.of_buf [65, 98, 65, 98] 4).size - 2) = 2 ∧
    (sequence.of_buf [65, 98, 65, 98] 4).wf ∧ 2 < (sequence.of_buf [65, 98, 65, 98] 4).size :=
  ⟨⟨_, rfl⟩, by decide, by decide, by decide⟩

/-- The test of `copy` (seq_tests.cpp:209-215): `AbAb` copied over `0000` under the
transforming policy gives `abab`, and 4 is returned. -/
theorem copy_test :
    sequence.copy case_insensitive_assign_char_traits (sequence.of_buf [65, 98, 65, 98] 4)
      [48, 48, 48, 48] 4 = .ok (4, [97, 98, 97, 98]) := by
  decide

/-- C18: for `p1 < s.size()`, `p2 < n1` with `n1 = min(c1, s.size() - p1)`, and
`p1 + c1`, `p2 + c2` not exceeding the largest `size_type`:
`s.subseq(p1, c1).subseq(p2, c2)` is the same range of the same buffer as
`s.subseq(p1 + p2, min(c2, n1 - p2))`, the range of `min(c2, n1 - p2)` elements
from `begin() + p1 + p2` on. -/
theorem subseq_subseq (s : sequence T) (p1 c1 p2 c2 : Nat) (hp1 : p1 < s.size)
    (hp2 : p2 < min c1 (s.size - p1)) (h1 : p1 + c1 < size_mod) (h2 : p2 + c2 < size_mod) :
    ∃ s1, s.subseq p1 c1 = .ok s1 ∧
      s1.subseq p2 c2 = s.subseq (p1 + p2) (min c2 (min c1 (s.size - p1) - p2)) ∧
      s1.subseq p2 c2 = .ok (sequence.make_seq s.buf (s.lptr + (p1 + p2))
        (s.lptr + (p1 + p2) + min c2 (min c1 (s.size - p1) - p2))) := by
  have hlt := sequence.size_lt s
  have hs1 := sequence.subseq_no_wrap s p1 c1 hp1 (Or.inr h1)
  have hsz1 := sequence.size_make_seq s.buf (s.lptr + p1) (min c1 (s.size - p1)) (by omega)
  have hin := sequence.subseq_no_wrap
    (sequence.make_seq s.buf (s.lptr + p1) (s.lptr + p1 + min c1 (s.size - p1))) p2 c2
    (by omega) (Or.inr h2)
  have hout := sequence.subseq_no_wrap s (p1 + p2) (min c2 (min c1 (s.size - p1) - p2))
    (by omega) (Or.inr (by omega))
  have hmin : min (min c2 (min c1 (s.size - p1) - p2)) (s.size - (p1 + p2))
      = min c2 (min c1 (s.size - p1) - p2) := by omega
  rw [hmin] at hout
  rw [hsz1] at hin
  have hadd : s.lptr + p1 + p2 = s.lptr + (p1 + p2) := by omega
  refine ⟨_, hs1, ?_, ?_⟩
  · rw [hin, hout]
    simp only [sequence.make_seq, hadd]
  · rw [hin]
    simp only [sequence.make_seq, hadd]

/-- C18 at `"abab".subseq(2, 3).subseq(0, 1)` of the tests: the one-element view at
offset 2. -/
theorem subseq_subseq_witness :
    ∃ s1, (sequence.of_buf [97, 98, 97, 98] 4).subseq 2 3 = .ok s1 ∧
      s1.subseq 0 1 = .ok (sequence.make_seq [97, 98, 97, 98] 2 3) :=
  (subseq_subseq (sequence.of_buf [97, 98, 97, 98] 4) 2 3 0 1 (by decide) (by decide)
    (by decide) (by decide)).imp (fun _ h => ⟨h.1, h.2.2⟩)

/-! ## Equality element by element, trimming, and the single-pass comparison -/

theorem std_equal_iff (p : T → T → Bool) (l1 l2 : List T) :
    std_equal p l1 l2 = true ↔
      l1.length = l2.length ∧
      ∀ i, i < l1.length → ∃ x y, l1[i]? = some x ∧ l2[i]? = some y ∧ p x y = true := by
  induction l1 generalizing l2 with
  | nil => cases l2 with
    | nil => simp [std_equal]
    | cons y ys => simp [std_equal]
  | cons x xs ih => cases l2 with
    | nil => simp [std_equal]
    | cons y ys =>
      simp only [std_equal, Bool.and_eq_true, ih ys, List.length_cons]
      constructor
      · rintro ⟨hxy, hlen, hall⟩
        refine ⟨by omega, ?_⟩
        intro i hi
        cases i with
        | zero => exact ⟨x, y, by simp, by simp, hxy⟩
        | succ j => simpa using hall j (by omega)
      · rintro ⟨hlen, hall⟩
        refine ⟨?_, by omega, ?_⟩
        · obtain ⟨x1, y1, h1, h2, h3⟩ := hall 0 (by omega)
          simp only [List.getElem?_cons_zero, Option.some.injEq] at h1 h2
          rw [h1, h2]
          exact h3
        · intro i hi
          simpa using hall (i + 1) (by omega)

/-- On a view satisfying the invariant, `operator[]` at an offset below `size()`
reads the element of that offset. -/
theorem sequence.index_ok_iff (s : sequence T) (hs : s.wf) (i : Nat) (hi : i < s.size) (x : T) :
    s.index i = .ok x ↔ s.elems[i]? = some x := by
  rw [sequence.elems_getElem? s hs i hi]
  unfold sequence.index
  cases h : s.buf[s.lptr + i]? with
  | none => simp
  | some y =>
    simp only [Option.some.injEq]
    constructor
    · intro h1
      injection h1
    · intro h1
      rw [h1]

/-- C15: for views `a` and `b` over any policy, `a == b` holds if and only if
`a.size() == b.size()` and for every index `i < a.size()` the policy's
`eq(a[i], b[i])` holds; `a != b` is the negation of `a == b`. -/
theorem op_eq_elementwise (tr : Traits T) (a b : sequence T) (ha : a.wf) (hb : b.wf) :
    (sequence.op_eq tr a b = true ↔
      a.size = b.size ∧
      ∀ i, i < a.size → ∃ x y, a.index i = .ok x ∧ b.index i = .ok y ∧ tr.eq x y = true) ∧
    sequence.op_ne tr a b = !(sequence.op_eq tr a b) := by
  refine ⟨?_, rfl⟩
  rw [sequence.op_eq_iff tr a b ha hb, std_equal_iff, sequence.length_elems a ha,
    sequence.length_elems b hb]
  constructor
  · rintro ⟨hsz, hall⟩
    refine ⟨hsz, ?_⟩
    intro i hi
    obtain ⟨x, y, h1, h2, h3⟩ := hall i hi
    exact ⟨x, y, (sequence.index_ok_iff a ha i hi x).mpr h1,
      (sequence.index_ok_iff b hb i (by omega) y).mpr h2, h3⟩
  · rintro ⟨hsz, hall⟩
    refine ⟨hsz, ?_⟩
    intro i hi
    obtain ⟨x, y, h1, h2, h3⟩ := hall i hi
    exact ⟨x, y, (sequence.index_ok_iff a ha i hi x).mp h1,
      (sequence.index_ok_iff b hb i (by omega) y).mp h2, h3⟩

/-- C15 at the test `a == char_sequence("abcdff", 3)` for `a` over `abc`
(seq_tests.cpp:77-88), and at two views that differ in their last element. -/
theorem op_eq_elementwise_witness :
    sequence.op_eq int_traits (sequence.of_buf [97, 98, 99] 3)
      (sequence.of_buf [97, 98, 99, 100, 102, 102] 3) = true ∧
    sequence.op_eq int_traits (sequence.of_buf [97, 98, 99] 3)
      (sequence.of_buf [97, 98, 100] 3) = false :=
  ⟨(op_eq_elementwise int_traits (sequence.of_buf [97, 98, 99] 3)
      (sequence.of_buf [97, 98, 99, 100, 102, 102] 3) (by decide) (by decide)).1.mpr
      ⟨by decide, fun i hi =>
        match i, hi with
        | 0, _ => ⟨97, 97, rfl, rfl, by decide⟩
        | 1, _ => ⟨98, 98, rfl, rfl, by decide⟩
        | 2, _ => ⟨99, 99, rfl, rfl, by decide⟩
        | n + 3, h => absurd h (by
            have h3 : (sequence.of_buf [(97 : Int), 98, 99] 3).size = 3 := by decide
            rw [h3]
            omega)⟩,
   by decide⟩

/-- C16: for `n + m <= s.size()`, after `s.remove_prefix(n)` followed by
`s.remove_suffix(m)` the size has decreased by exactly `n + m`, for every
`i` below the new size the new `s[i]` is the old `s[n + i]`, the elements are the
old ones from `n` on in their order, and the buffer is the same. -/
theorem remove_prefix_then_suffix (s : sequence T) (n m : Nat) (hs : s.wf)
    (hnm : n + m ≤ s.size) :
    (sequence.remove_suffix ( sequence.remove_prefix s n) m).size + (n + m) = s.size ∧
    (∀ i, i < (sequence.remove_suffix ( sequence.remove_prefix s n) m).size →
      ∃ x, (sequence.remove_suffix ( sequence.remove_prefix s n) m).index i = .ok x ∧
        s.index (n + i) = .ok x) ∧
    (sequence.remove_suffix ( sequence.remove_prefix s n) m).elems
      = (s.elems.drop n).take (s.size - (n + m)) ∧
    (sequence.remove_suffix ( sequence.remove_prefix s n) m).buf = s.buf ∧
    (sequence.remove_suffix ( sequence.remove_prefix s n) m).wf := by
  have hsz := sequence.size_of_wf s hs
  have hwf2 : (sequence.remove_suffix ( sequence.remove_prefix s n) m).wf := by
    obtain ⟨h1, h2, h3⟩ := hs
    unfold sequence.wf sequence.remove_suffix sequence.remove_prefix
    simp only
    omega
  have hsz2 := sequence.size_of_wf _ hwf2
  have hl : (sequence.remove_suffix ( sequence.remove_prefix s n) m).lptr = s.lptr + n := rfl
  have hr : (sequence.remove_suffix ( sequence.remove_prefix s n) m).rptr = s.rptr - m := rfl
  rw [hl, hr] at hsz2
  refine ⟨by omega, ?_, ?_, rfl, hwf2⟩
  · intro i hi
    have hlt : s.lptr + (n + i) < s.buf.length := by
      obtain ⟨h1, h2, h3⟩ := hs
      omega
    refine ⟨s.buf[s.lptr + (n + i)], ?_, ?_⟩
    · unfold sequence.index
      have hb : (sequence.remove_suffix ( sequence.remove_prefix s n) m).buf = s.buf := rfl
      rw [hl, hb, Nat.add_assoc, List.getElem?_eq_getElem hlt]
    · unfold sequence.index
      rw [List.getElem?_eq_getElem hlt]
  · have he : (sequence.remove_suffix ( sequence.remove_prefix s n) m).elems
        = (s.buf.drop (s.lptr + n)).take (s.rptr - m - (s.lptr + n)) := rfl
    rw [he]
    have hk : s.rptr - m - (s.lptr + n) = s.size - (n + m) := by omega
    rw [hk, sequence.take_drop_buf s hs n (s.size - (n + m)) (by omega)]

/-- C16 at the view `A B C D I` of the tests, `n = 2` and `m = 1`: the view `C D`. -/
theorem remove_prefix_then_suffix_witness :
    (sequence.remove_suffix ( sequence.remove_prefix (sequence.of_buf [65, 66, 67, 68, 73] 5) 2)
      1).size + (2 + 1) = 5 ∧
    (sequence.remove_suffix ( sequence.remove_prefix (sequence.of_buf [65, 66, 67, 68, 73] 5) 2)
      1).elems = [67, 68] :=
  ⟨(remove_prefix_then_suffix (sequence.of_buf [65, 66, 67, 68, 73] 5) 2 1 (by decide)
      (by decide)).1,
   by decide⟩

/-- The walk of the reference comparison against the three tests of `compare`, on
two lists whose lengths compare as `asize` and `bsize` do. -/
theorem compare_ref_walk_spec {tr : Traits T} (hsw : tr.strict_weak) (asize bsize : Nat)
    (la lb : List T) (hlt : asize < bsize ↔ la.length < lb.length)
    (heq : asize = bsize ↔ la.length = lb.length) :
    (std_lexicographical_compare tr.lt la lb = true →
      compare_ref_walk tr asize bsize la lb = -1) ∧
    (std_equal tr.eq la lb = true → compare_ref_walk tr asize bsize la lb = 0) ∧
    (std_lexicographical_compare tr.lt lb la = true →
      compare_ref_walk tr asize bsize la lb = 1) := by
  induction la generalizing lb with
  | nil => cases lb with
    | nil =>
      simp only [List.length_nil, lt_self_iff_false, iff_false, iff_true] at hlt heq
      simp [std_lexicographical_compare, std_equal, compare_ref_walk, heq]
    | cons y ys =>
      simp only [List.length_nil, List.length_cons] at hlt heq
      have h1 : asize < bsize := hlt.mpr (by omega)
      simp [std_lexicographical_compare, std_equal, compare_ref_walk, h1]
  | cons x xs ih => cases lb with
    | nil =>
      simp only [List.length_nil, List.length_cons] at hlt heq
      have h1 : ¬ asize < bsize := fun h => by have := hlt.mp h; omega
      have h2 : ¬ asize = bsize := fun h => by have := heq.mp h; omega
      simp [std_lexicographical_compare, std_equal, compare_ref_walk, h1, h2]
    | cons y ys =>
      simp only [List.length_cons] at hlt heq
      have ih1 := ih ys (by rw [hlt]; omega) (by rw [heq]; omega)
      unfold std_lexicographical_compare std_equal compare_ref_walk
      cases hE : tr.eq x y
      · have hne : ¬ (tr.lt x y = false ∧ tr.lt y x = false) := by
          intro h
          have := (hsw.eq_iff x y).mpr h
          rw [hE] at this
          cases this
        cases hxy : tr.lt x y
        · cases hyx : tr.lt y x
          · exact absurd ⟨hxy, hyx⟩ hne
          · simp
        · have hyx := hsw.asymm x y hxy
          simp [hyx]
      · obtain ⟨hxy, hyx⟩ := (hsw.eq_iff x y).mp hE
        simpa [hxy, hyx] using ih1

/-- C19: for a policy whose `lt` is a strict weak ordering consistent with `eq` and
views `a`, `b`, the value `a.compare(b)` returns, computed by separate `<`, `==`,
`>` tests, is the result of the single-pass reference comparison. -/
theorem compare_eq_single_pass {tr : Traits T} (hsw : tr.strict_weak) (a b : sequence T)
    (ha : a.wf) (hb : b.wf) :
    sequence.compare tr a b = .ok (sequence.compare_ref tr a b) := by
  have hwalk := compare_ref_walk_spec hsw a.size b.size a.elems b.elems
    (by rw [sequence.length_elems a ha, sequence.length_elems b hb])
    (by rw [sequence.length_elems a ha, sequence.length_elems b hb])
  have hiff := sequence.op_eq_iff tr a b ha hb
  unfold sequence.compare sequence.compare_ref
  rcases sequence.op_trichotomy hsw a b ha hb with h | h | h
  · rw [h.1, hwalk.1 h.1]
    rfl
  · rw [h.1, h.2.1, hwalk.2.1 (hiff.mp h.2.1)]
    rfl
  · rw [h.1, h.2.1, h.2.2, hwalk.2.2 h.2.2]
    rfl

/-- C19 at the views `aba` and `abc`, and `ab` and `aba`, of character codes. -/
theorem compare_eq_single_pass_witness :
    sequence.compare int_traits (sequence.of_buf [97, 98, 97] 3) (sequence.of_buf [97, 98, 99] 3)
      = .ok (sequence.compare_ref int_traits (sequence.of_buf [97, 98, 97] 3)
          (sequence.of_buf [97, 98, 99] 3)) ∧
    sequence.compare_ref int_traits (sequence.of_buf [97, 98, 97] 3)
      (sequence.of_buf [97, 98, 99] 3) = -1 ∧
    sequence.compare_ref int_traits (sequence.of_buf [97, 98, 97] 3)
      (sequence.of_buf [97, 98] 2) = 1 :=
  ⟨compare_eq_single_pass int_traits_strict_weak (sequence.of_buf [97, 98, 97] 3)
      (sequence.of_buf [97, 98, 99] 3) (by decide) (by decide),
   by decide, by decide⟩

end Seq
